import Mathlib

/-!
Verification of the argument specification and lifecycle engine of the
`getoptsargs` crate.  Definitions are shallow embeddings of the Rust source:
`src/args.rs` (positional/trailing argument registry, validator and usage
formatter), `src/errors.rs` (`UsageError`), `src/run.rs` (`pre_run`,
`print_usage_error`, `handle_error`) and `src/lib.rs` (`Builder::run`).

Rust `usize` is modelled as `Nat`; `usize::MAX` as the 64-bit constant.
Rust `String`/`&str` are modelled as `String` (all values of interest are
ASCII, where Rust byte lengths and Lean character lengths agree).  A panicking
`assert!` is modelled as a dedicated abort outcome, distinct from returning a
`UsageError`.
-/

set_option maxHeartbeats 1000000

namespace Getoptsargs

/-- Rust `" ".repeat(n)`. -/
def spaces (n : Nat) : String :=
  String.mk (List.replicate n ' ')

/-- Concatenation of a list of strings. -/
def strJoin : List String → String
  | [] => ""
  | s :: ss => s ++ strJoin ss

/-- Elements separated by exactly one occurrence of `sep`: the semantics of
Rust `slice::join(sep)`. -/
def joinSep (sep : String) : List String → String
  | [] => ""
  | w :: ws => w ++ strJoin (ws.map (fun x => sep ++ x))

/-- Character-level model of Rust `str::split(' ')` over a character list:
splits at every space, keeping empty pieces, and yields `[[]]` on empty
input just as Rust yields one empty item. -/
def splitSp : List Char → List (List Char)
  | [] => [[]]
  | c :: cs =>
    let r := splitSp cs
    if c = ' ' then [] :: r
    else
      match r with
      | [] => [[c]]
      | w :: ws => (c :: w) :: ws

/-- Rust `unwrapped.split(' ')` as a list of strings. -/
def splitWords (s : String) : List String :=
  (splitSp s.data).map String.mk

/-- The loop body of `wrap` (src/args.rs lines 26-43), with the two mutable
locals `text` and `len` threaded explicitly.  The word iterator becomes the
explicit word list. -/
def wrapGo (pad_width max_width : Nat) (text : String) (len : Nat) :
    List String → String × Nat
  | [] => (text, len)
  | w :: ws =>
    if len = 0 then
      wrapGo pad_width max_width (text ++ w) (len + w.length) ws
    else if len + w.length + 1 > max_width then
      wrapGo pad_width max_width (text ++ "\n" ++ spaces pad_width ++ w) w.length ws
    else
      wrapGo pad_width max_width (text ++ " " ++ w) (len + 1 + w.length) ws

/-- `wrap` (src/args.rs lines 23-45): reformats `unwrapped` to fit within
`max_width`; every generated line except the first is prefixed with
`pad_width` spaces. -/
def wrap (unwrapped : String) (pad_width max_width : Nat) : String :=
  (wrapGo pad_width max_width "" 0 (splitWords unwrapped)).1

/-- `format_two_columns` (src/args.rs lines 49-61): pads `col1` with spaces up
to `start2` when it is shorter, otherwise breaks the line and indents by
`start2` spaces; then appends `col2` wrapped to `width2` with continuation
lines padded by `start2`. -/
def format_two_columns (col1 : String) (col2 : String) (start2 width2 : Nat) : String :=
  let text :=
    if col1.length < start2 then col1 ++ spaces (start2 - col1.length)
    else col1 ++ "\n" ++ spaces start2
  text ++ wrap col2 start2 width2

/-- Start of the second column in usage messages (src/args.rs line 17). -/
def COL2_START : Nat := 24

/-- Max length of the second column in usage messages (src/args.rs line 19). -/
def COL2_WIDTH : Nat := 54

/-- `usize::MAX` on a 64-bit platform. -/
def USIZE_MAX : Nat := 2 ^ 64 - 1

/-- `trailing_brief` (src/args.rs lines 74-81): the placeholder token for the
trailing argument, selected by the `(min, max)` pair. -/
def trailing_brief (name : String) (min max : Nat) : String :=
  if min = 0 ∧ max = 1 then "[" ++ name ++ "]"
  else if min = 0 ∧ max = USIZE_MAX then "[" ++ name ++ "1 .. " ++ name ++ "N]"
  else if min = 1 ∧ max = USIZE_MAX then name ++ "1 [.. " ++ name ++ "N]"
  else name ++ toString min ++ " .. " ++ name ++ toString max

/-- `UsageError` (src/errors.rs lines 18-21). -/
structure UsageError where
  message : String
deriving DecidableEq

/-- The argument half of `Matches` (src/args.rs lines 65-71).  The Rust
`HashMap` of positional bindings is modelled as an association list with
first-match lookup. -/
structure Matches where
  positional : List (String × String)
  trailing : List String
deriving DecidableEq

/-- `Arguments` (src/args.rs lines 87-90): the argument specification
registry. -/
structure Arguments where
  positional_spec : List (String × String)
  trailing_spec : Option (String × Nat × Nat × String)
deriving DecidableEq

/-- `HashMap::get` over the association-list model. -/
def lookupPos (m : List (String × String)) (k : String) : Option String :=
  (m.find? (fun p => p.1 == k)).map Prod.snd

/-- `HashMap::insert` over the association-list model: replaces the existing
binding for the key or appends a fresh one. -/
def insertPos (m : List (String × String)) (k v : String) : List (String × String) :=
  if (m.find? (fun p => p.1 == k)).isSome then
    m.map (fun p => if p.1 == k then (k, v) else p)
  else
    m ++ [(k, v)]

/-- `Arguments::positional` (src/args.rs lines 94-100).  The `assert!` that no
trailing spec exists yet is a programming-error abort, modelled as `none`. -/
def Arguments.positional (a : Arguments) (name description : String) : Option Arguments :=
  if a.trailing_spec.isSome then none
  else some { a with positional_spec := a.positional_spec ++ [(name, description)] }

/-- `Arguments::trailing` (src/args.rs lines 108-117).  The `assert!` that no
trailing spec exists yet is a programming-error abort, modelled as `none`.
No relation between `min` and `max` is checked. -/
def Arguments.trailing (a : Arguments) (name : String) (min max : Nat)
    (description : String) : Option Arguments :=
  if a.trailing_spec.isSome then none
  else some { a with trailing_spec := some (name, min, max, description) }

/-- Outcome of `Arguments::parse`: success, a returned `UsageError`, or a
process abort from the `assert!(previous.is_none())` on line 167. -/
inductive ParseResult where
  | ok : Matches → ParseResult
  | err : UsageError → ParseResult
  | panicked : ParseResult
deriving DecidableEq

/-- The positional loop of `Arguments::parse` (src/args.rs lines 161-168):
pop one free argument per declared positional, failing when none remains, and
insert it into the map, aborting when the name was already bound. -/
def posLoop :
    List (String × String) → List String → List (String × String) →
      ParseResult ⊕ (List (String × String) × List String)
  | [], free, positional => Sum.inr (positional, free)
  | (name, _d) :: rest, free, positional =>
    match free with
    | [] =>
      Sum.inl (.err ⟨"Required argument `" ++ name ++ "` not provided"⟩)
    | v :: vs =>
      if (lookupPos positional name).isSome then Sum.inl .panicked
      else posLoop rest vs (insertPos positional name v)

/-- `Arguments::parse` (src/args.rs lines 157-197). -/
def Arguments.parse (a : Arguments) (free : List String) : ParseResult :=
  match posLoop a.positional_spec free [] with
  | .inl r => r
  | .inr (positional, rest) =>
    match a.trailing_spec with
    | some (name, min, _max, _d) =>
      if rest.length < min then
        if min = 1 then
          .err ⟨"Trailing argument `" ++ name ++ "` requires at least 1 value"⟩
        else
          .err ⟨"Trailing argument `" ++ name ++ "` requires at least "
                  ++ toString min ++ " values"⟩
      else if rest.length > _max then
        .err ⟨"Too many arguments"⟩
      else
        .ok ⟨positional, rest⟩
    | none =>
      match rest with
      | [] => .ok ⟨positional, []⟩
      | _ :: _ => .err ⟨"Too many arguments"⟩

/-- `Arguments::brief` (src/args.rs lines 120-129). -/
def Arguments.brief (a : Arguments) : String :=
  let spec := joinSep " " (a.positional_spec.map Prod.fst)
  match a.trailing_spec with
  | none => spec
  | some (name, min, _max, _d) =>
    if spec = "" then trailing_brief name min _max
    else spec ++ " " ++ trailing_brief name min _max

/-- `Arguments::usage` (src/args.rs lines 135-153). -/
def Arguments.usage (a : Arguments) : String :=
  if a.positional_spec = [] ∧ a.trailing_spec = none then ""
  else
    let text := a.positional_spec.foldl
      (fun acc p =>
        acc ++ format_two_columns ("    " ++ p.1) p.2 COL2_START COL2_WIDTH ++ "\n")
      "Arguments:\n"
    match a.trailing_spec with
    | some (name, min, _max, d) =>
      text ++ format_two_columns ("    " ++ trailing_brief name min _max) d
        COL2_START COL2_WIDTH ++ "\n"
    | none => text

/-- The fields of `App` (src/lib.rs lines 79-91) consumed by the error
printers. -/
structure App where
  program_name : String
  manpage : Option (String × String)
deriving DecidableEq

/-- Model of the external `getopts::Matches` as consumed by `pre_run`: the two
standard flags and the free-argument list. -/
structure OptMatches where
  help : Bool
  version : Bool
  free : List String
deriving DecidableEq

/-- Result of the external `getopts::Options::parse` call on src/run.rs line
119: either parsed matches or a `getopts::Fail` carrying its rendered
message. -/
inductive OptParseResult where
  | ok : OptMatches → OptParseResult
  | fail : String → OptParseResult
deriving DecidableEq

/-- Which of the two renderers (`help` on src/run.rs lines 42-74, `version` on
lines 77-90) ran during `pre_run`. -/
inductive Rendered where
  | helpOutput : Rendered
  | versionOutput : Rendered
deriving DecidableEq

/-- Outcome of `pre_run` (src/run.rs lines 113-151): `earlyExit` is
`Ok(None)` together with the renderers that ran; `ok` is `Ok(Some(matches))`
restricted to the argument half; `usageErr` is `Err` wrapping the
`UsageError` from `Arguments::parse`; `optFail` is `Err` wrapping the
`getopts::Fail` from option parsing; `panicked` is the propagated abort from
`Arguments::parse`. -/
inductive PreRunOutcome where
  | earlyExit : List Rendered → PreRunOutcome
  | ok : Matches → PreRunOutcome
  | usageErr : UsageError → PreRunOutcome
  | optFail : String → PreRunOutcome
  | panicked : PreRunOutcome
deriving DecidableEq

/-- `pre_run` (src/run.rs lines 113-151), with the external option-parse
result passed as data. -/
def pre_run (args : Arguments) (optResult : OptParseResult) : PreRunOutcome :=
  match optResult with
  | .fail msg => .optFail msg
  | .ok om =>
    if om.help then .earlyExit [.helpOutput]
    else if om.version then .earlyExit [.versionOutput]
    else
      match args.parse om.free with
      | .ok m => .ok m
      | .err e => .usageErr e
      | .panicked => .panicked

/-- The two kinds an `anyhow::Error` reaching `handle_error` can downcast to,
plus everything else. -/
inductive AppError where
  | usage : UsageError → AppError
  | optsFail : String → AppError
  | other : String → AppError
deriving DecidableEq

/-- `print_usage_error` (src/run.rs lines 158-167): the stderr lines it
emits. -/
def print_usage_error (app : App) (message : String) : List String :=
  [ "Usage error: " ++ message,
    match app.manpage with
    | some (page, sect) =>
      "Type `" ++ app.program_name ++ " --help` or `man " ++ sect ++ " "
        ++ page ++ "` for more information"
    | none => "Type `" ++ app.program_name ++ " --help` for more information" ]

/-- `handle_error` (src/run.rs lines 171-182): returns the printed stderr
lines and the exit code. -/
def handle_error (app : App) : AppError → List String × Int
  | .usage e => (print_usage_error app e.message, 2)
  | .optsFail msg => (print_usage_error app msg, 2)
  | .other msg => ([app.program_name ++ ": " ++ msg], 1)

/-- `Builder::run` (src/lib.rs lines 207-216): composes `pre_run`, the
application callback and `handle_error` into stderr lines plus an exit code;
`none` models a propagated panic. -/
def Builder.run (app : App) (args : Arguments) (optResult : OptParseResult)
    (main : Matches → Except AppError Int) : Option (List String × Int) :=
  match pre_run args optResult with
  | .earlyExit _ => some ([], 0)
  | .ok m =>
    match main m with
    | .ok code => some ([], code)
    | .error e => some (handle_error app e)
  | .usageErr e => some (handle_error app (.usage e))
  | .optFail msg => some (handle_error app (.optsFail msg))
  | .panicked => none

/-! Reference definitions written from the spec text of `word_wrap`
(spec §4.2), used to state the refinement half of the wrapping claim:
greedy packing of words into lines, with lines after the first prefixed by
the padding and words separated by exactly one space. -/

/-- Greedy packing step, from the spec wording: a word joins the current line
exactly when the line length plus one separating space plus the word still
fits within `max_width`; otherwise it starts a new line.  `len` is the length
of the current (already begun) line; the result is the words still appended
to that line, then the subsequent lines. -/
def greedyGo (max_width len : Nat) : List String → List String × List (List String)
  | [] => ([], [])
  | w :: ws =>
    if len + w.length + 1 > max_width then
      let r := greedyGo max_width w.length ws
      ([], (w :: r.1) :: r.2)
    else
      let r := greedyGo max_width (len + 1 + w.length) ws
      (w :: r.1, r.2)

/-- The greedy packing of a word list into lines. -/
def greedyLines (max_width : Nat) : List String → List (List String)
  | [] => []
  | w :: ws =>
    let r := greedyGo max_width w.length ws
    (w :: r.1) :: r.2

/-- Spec rendering: lines joined by a newline plus `pad_width` spaces, words
within a line joined by single spaces. -/
def renderWrapped (pad_width : Nat) (lines : List (List String)) : String :=
  joinSep ("\n" ++ spaces pad_width) (lines.map (joinSep " "))

/-- `word_wrap(text, pad_width, max_width)` as the spec describes it. -/
def word_wrap_spec (text : String) (pad_width max_width : Nat) : String :=
  renderWrapped pad_width (greedyLines max_width (splitWords text))

/-- Length of a line of words rendered with single separating spaces. -/
def lineLen : List String → Nat
  | [] => 0
  | w :: ws => w.length + (ws.map (fun x => x.length + 1)).sum

/-! Helper lemmas. -/

lemma string_length_eq_zero {s : String} : s.length = 0 ↔ s = "" := by
  constructor
  · intro h
    cases s with
    | mk data =>
      have hd : data = [] := List.length_eq_zero.mp h
      subst hd
      rfl
  · intro h
    subst h
    rfl

lemma wrapGo_factor (p m : Nat) :
    ∀ (ws : List String) (text : String) (len : Nat),
      wrapGo p m text len ws
        = (text ++ (wrapGo p m "" len ws).1, (wrapGo p m "" len ws).2) := by
  intro ws
  induction ws with
  | nil =>
    intro text len
    simp [wrapGo]
  | cons w ws ih =>
    intro text len
    by_cases h0 : len = 0
    · simp only [wrapGo, if_pos h0]
      rw [ih (text ++ w), ih ("" ++ w)]
      simp [String.append_assoc]
    · by_cases h1 : len + w.length + 1 > m
      · simp only [wrapGo, if_neg h0, if_pos h1]
        rw [ih (text ++ "\n" ++ spaces p ++ w), ih ("" ++ "\n" ++ spaces p ++ w)]
        simp [String.append_assoc]
      · simp only [wrapGo, if_neg h0, if_neg h1]
        rw [ih (text ++ " " ++ w), ih ("" ++ " " ++ w)]
        simp [String.append_assoc]

lemma wrapGo_spec (p m : Nat) :
    ∀ (ws : List String) (len : Nat),
      (∀ w ∈ ws, w ≠ "") → len ≠ 0 →
      (wrapGo p m "" len ws).1
        = strJoin ((greedyGo m len ws).1.map (fun x => " " ++ x))
          ++ strJoin ((greedyGo m len ws).2.map
              (fun l => "\n" ++ spaces p ++ joinSep " " l)) := by
  intro ws
  induction ws with
  | nil =>
    intro len _ _
    simp [wrapGo, greedyGo, strJoin]
  | cons w ws ih =>
    intro len hw hlen
    have hwne : w ≠ "" := hw w (List.mem_cons_self w ws)
    have hwlen : w.length ≠ 0 := fun h => hwne (string_length_eq_zero.mp h)
    have hws : ∀ x ∈ ws, x ≠ "" := fun x hx => hw x (List.mem_cons_of_mem w hx)
    by_cases h1 : len + w.length + 1 > m
    · simp only [wrapGo, if_neg hlen, if_pos h1]
      rw [wrapGo_factor]
      rw [ih w.length hws hwlen]
      simp only [greedyGo, if_pos h1]
      simp [strJoin, joinSep, String.append_assoc]
    · simp only [wrapGo, if_neg hlen, if_neg h1]
      rw [wrapGo_factor]
      rw [ih (len + 1 + w.length) hws (by omega)]
      simp only [greedyGo, if_neg h1]
      simp [strJoin, joinSep, String.append_assoc]

lemma greedyGo_fits (m : Nat) :
    ∀ (ws : List String) (len : Nat),
      ((greedyGo m len ws).1 ≠ [] →
        len + (((greedyGo m len ws).1.map (fun x => x.length + 1)).sum) ≤ m)
      ∧ ∀ l ∈ (greedyGo m len ws).2, l ≠ [] ∧ (2 ≤ l.length → lineLen l ≤ m) := by
  intro ws
  induction ws with
  | nil =>
    intro len
    constructor
    · intro h
      simp [greedyGo] at h
    · intro l hl
      simp [greedyGo] at hl
  | cons w ws ih =>
    intro len
    by_cases h1 : len + w.length + 1 > m
    · simp only [greedyGo, if_pos h1]
      constructor
      · intro h
        simp at h
      · intro l hl
        simp only [List.mem_cons] at hl
        rcases hl with rfl | hl
        · refine ⟨by simp, fun h2 => ?_⟩
          have hne : (greedyGo m w.length ws).1 ≠ [] := by
            intro he
            rw [he] at h2
            simp at h2
          have hfit := (ih w.length).1 hne
          simp only [lineLen]
          omega
        · exact (ih w.length).2 l hl
    · simp only [greedyGo, if_neg h1]
      constructor
      · intro _
        by_cases hne : (greedyGo m (len + 1 + w.length) ws).1 = []
        · simp [hne]
          omega
        · have hfit := (ih (len + 1 + w.length)).1 hne
          simp only [List.map_cons, List.sum_cons]
          omega
      · exact (ih (len + 1 + w.length)).2

lemma greedyLines_fits (m : Nat) (ws : List String) :
    ∀ l ∈ greedyLines m ws, l ≠ [] ∧ (2 ≤ l.length → lineLen l ≤ m) := by
  cases ws with
  | nil =>
    intro l hl
    simp [greedyLines] at hl
  | cons w ws =>
    intro l hl
    simp only [greedyLines, List.mem_cons] at hl
    rcases hl with rfl | hl
    · refine ⟨by simp, fun h2 => ?_⟩
      have hne : (greedyGo m w.length ws).1 ≠ [] := by
        intro he
        rw [he] at h2
        simp at h2
      have hfit := (greedyGo_fits m ws w.length).1 hne
      simp only [lineLen]
      omega
    · exact (greedyGo_fits m ws w.length).2 l hl

lemma mem_lineLen_le : ∀ (l : List String), ∀ w ∈ l, w.length ≤ lineLen l := by
  intro l w hw
  cases l with
  | nil => simp at hw
  | cons x xs =>
    simp only [List.mem_cons] at hw
    simp only [lineLen]
    rcases hw with rfl | hw
    · omega
    · have h1 : w.length + 1 ∈ xs.map (fun x => x.length + 1) :=
        List.mem_map_of_mem _ hw
      have h2 : w.length + 1 ≤ (xs.map (fun x => x.length + 1)).sum :=
        List.single_le_sum (fun _ _ => Nat.zero_le _) _ h1
      omega

lemma joinSep_space_length : ∀ l : List String, (joinSep " " l).length = lineLen l := by
  intro l
  cases l with
  | nil => rfl
  | cons w ws =>
    simp only [joinSep, lineLen, String.length_append]
    congr 1
    induction ws with
    | nil => rfl
    | cons x xs ih =>
      simp only [List.map_cons, strJoin, List.sum_cons, String.length_append, ih]
      have h1 : (" " : String).length = 1 := rfl
      omega

lemma overlong_alone (m : Nat) (ws : List String) :
    ∀ line ∈ greedyLines m ws, ∀ w ∈ line, m < w.length → line = [w] := by
  intro line hline w hw hlong
  obtain ⟨hne, hfit⟩ := greedyLines_fits m ws line hline
  by_cases h2 : 2 ≤ line.length
  · exfalso
    have ha := hfit h2
    have hb := mem_lineLen_le line w hw
    omega
  · have h0 : line.length ≠ 0 := fun hx => hne (List.length_eq_zero.mp hx)
    have hlen1 : line.length = 1 := by omega
    obtain ⟨a, rfl⟩ := List.length_eq_one.mp hlen1
    simp only [List.mem_singleton] at hw
    subst hw
    rfl

/-- C5: `wrap(text, pad_width, max_width)` greedily packs the space-separated
words of `text` onto lines no wider than `max_width` (measured over the packed
words; a single word longer than `max_width` is placed alone on its line
without being split); every generated line after the first is prefixed with
`pad_width` spaces; words sharing a line are separated by exactly one space.
In particular `wrap "foo bar" 4 7 = "foo bar"` and
`wrap "foo bar very-long-word a b" 4 5
  = "foo\n    bar\n    very-long-word\n    a b"`. -/
theorem wrap_greedy_c5 (text : String) (pad_width max_width : Nat)
    (h : ∀ w ∈ splitWords text, w ≠ "") :
    wrap text pad_width max_width = word_wrap_spec text pad_width max_width
    ∧ (∀ line ∈ greedyLines max_width (splitWords text),
        2 ≤ line.length → (joinSep " " line).length ≤ max_width)
    ∧ (∀ line ∈ greedyLines max_width (splitWords text),
        ∀ w ∈ line, max_width < w.length → line = [w])
    ∧ wrap "foo bar" 4 7 = "foo bar"
    ∧ wrap "foo bar very-long-word a b" 4 5
        = "foo\n    bar\n    very-long-word\n    a b" := by
  refine ⟨?_, ?_, ?_, by decide, by decide⟩
  · rw [wrap, word_wrap_spec, renderWrapped]
    cases hs : splitWords text with
    | nil => simp [wrapGo, greedyLines, joinSep]
    | cons w ws =>
      rw [hs] at h
      have hwne : w ≠ "" := h w (List.mem_cons_self w ws)
      have hwlen : w.length ≠ 0 := fun hx => hwne (string_length_eq_zero.mp hx)
      have hws : ∀ x ∈ ws, x ≠ "" := fun x hx => h x (List.mem_cons_of_mem w hx)
      have hstep : wrapGo pad_width max_width "" 0 (w :: ws)
          = wrapGo pad_width max_width w w.length ws := by
        simp [wrapGo, String.empty_append]
      have hfac := wrapGo_factor pad_width max_width ws w w.length
      rw [hstep, hfac, wrapGo_spec pad_width max_width ws w.length hws hwlen]
      simp only [greedyLines]
      simp [joinSep, strJoin, String.append_assoc]
      try rfl
  · intro line hline h2
    rw [joinSep_space_length]
    exact (greedyLines_fits max_width (splitWords text) line hline).2 h2
  · exact overlong_alone max_width (splitWords text)

/-- Witness for C5 at a concrete input: the implementation agrees with the
spec-side greedy rendering on the spec's own example. -/
theorem wrap_greedy_c5_witness :
    wrap "foo bar very-long-word a b" 4 5
      = word_wrap_spec "foo bar very-long-word a b" 4 5 :=
  (wrap_greedy_c5 "foo bar very-long-word a b" 4 5 (by decide)).1

lemma spaces_length (n : Nat) : (spaces n).length = n := by
  show (List.replicate n ' ').length = n
  exact List.length_replicate n ' '

lemma foldl_usage_join {α : Type} (f : α → String) :
    ∀ (l : List α) (init : String),
      l.foldl (fun acc x => acc ++ f x ++ "\n") init
        = init ++ strJoin (l.map (fun x => f x ++ "\n")) := by
  intro l
  induction l with
  | nil =>
    intro init
    simp [strJoin, String.append_empty]
  | cons x xs ih =>
    intro init
    simp only [List.foldl_cons, List.map_cons, strJoin]
    rw [ih]
    simp [String.append_assoc]

/-- C6: `format_two_columns(col1, col2, start2, width2)` right-pads a `col1`
shorter than `start2` with spaces to exactly `start2` characters and appends
`col2` wrapped at `width2` with continuation lines padded to `start2`;
a `col1` of at least `start2` characters is followed by a newline and
`start2` spaces before the wrapped `col2`; the registry usage rendering
invokes it with the constants `start2 = 24` and `width2 = 54`; and
`format_two_columns "    foo" "bar" 10 5 = "    foo   bar"`. -/
theorem format_two_columns_c6 (col1 col2 : String) (start2 width2 : Nat)
    (a : Arguments) :
    (col1.length < start2 →
      format_two_columns col1 col2 start2 width2
          = (col1 ++ spaces (start2 - col1.length)) ++ wrap col2 start2 width2
        ∧ (col1 ++ spaces (start2 - col1.length)).length = start2)
    ∧ (start2 ≤ col1.length →
      format_two_columns col1 col2 start2 width2
          = col1 ++ "\n" ++ spaces start2 ++ wrap col2 start2 width2)
    ∧ COL2_START = 24
    ∧ COL2_WIDTH = 54
    ∧ (¬(a.positional_spec = [] ∧ a.trailing_spec = none) →
        a.usage
          = "Arguments:\n"
            ++ strJoin (a.positional_spec.map
                (fun p => format_two_columns ("    " ++ p.1) p.2 24 54 ++ "\n"))
            ++ (match a.trailing_spec with
                | some (name, mn, mx, d) =>
                  format_two_columns ("    " ++ trailing_brief name mn mx) d 24 54
                    ++ "\n"
                | none => ""))
    ∧ format_two_columns "    foo" "bar" 10 5 = "    foo   bar" := by
  refine ⟨?_, ?_, rfl, rfl, ?_, by decide⟩
  · intro hlt
    constructor
    · rw [format_two_columns]
      simp [if_pos hlt]
    · rw [String.length_append, spaces_length]
      omega
  · intro hge
    rw [format_two_columns]
    simp only [if_neg (Nat.not_lt.mpr hge)]
  · intro hne
    rw [Arguments.usage]
    rw [if_neg hne]
    rw [foldl_usage_join
      (fun p : String × String =>
        format_two_columns ("    " ++ p.1) p.2 COL2_START COL2_WIDTH)]
    cases htr : a.trailing_spec with
    | none =>
      simp [COL2_START, COL2_WIDTH, String.append_empty, String.append_assoc]
    | some t =>
      obtain ⟨name, mn, mx, d⟩ := t
      simp [COL2_START, COL2_WIDTH, String.append_assoc]

/-- Witness for C6 at the spec's concrete input: column one shorter than
`start2` is padded to exactly `start2` characters. -/
theorem format_two_columns_c6_witness :
    format_two_columns "    foo" "bar" 10 5
        = (("    foo" : String) ++ spaces (10 - ("    foo" : String).length))
          ++ wrap "bar" 10 5
      ∧ (("    foo" : String) ++ spaces (10 - ("    foo" : String).length)).length
          = 10 :=
  (format_two_columns_c6 "    foo" "bar" 10 5 ⟨[], none⟩).1 (by decide)

lemma joinSep_ne_empty {w : String} (ws : List String) (hw : w ≠ "") :
    joinSep " " (w :: ws) ≠ "" := by
  intro hcontra
  have hlen := congrArg String.length hcontra
  simp only [joinSep, String.length_append] at hlen
  have hz : ("" : String).length = 0 := rfl
  have hwl : w.length = 0 := by omega
  exact hw (string_length_eq_zero.mp hwl)

/-- C7: `Arguments::brief` returns the space-joined positional names
followed, when a trailing declaration exists, by one placeholder token
determined solely by `(min, max)`: `(0, 1)` gives `"[name]"`,
`(0, usize::MAX)` gives `"[name1 .. nameN]"`, `(1, usize::MAX)` gives
`"name1 [.. nameN]"`, and every other pair gives
`"name{min} .. name{max}"`; it returns the empty string when nothing is
declared. -/
theorem brief_c7 (ps : List (String × String)) (nm d : String) (mn mx : Nat) :
    Arguments.brief ⟨[], none⟩ = ""
    ∧ Arguments.brief ⟨ps, none⟩ = joinSep " " (ps.map Prod.fst)
    ∧ Arguments.brief ⟨[], some (nm, mn, mx, d)⟩ = trailing_brief nm mn mx
    ∧ ((∀ p ∈ ps, p.1 ≠ "") → ps ≠ [] →
        Arguments.brief ⟨ps, some (nm, mn, mx, d)⟩
          = joinSep " " (ps.map Prod.fst) ++ " " ++ trailing_brief nm mn mx)
    ∧ trailing_brief nm 0 1 = "[" ++ nm ++ "]"
    ∧ trailing_brief nm 0 USIZE_MAX = "[" ++ nm ++ "1 .. " ++ nm ++ "N]"
    ∧ trailing_brief nm 1 USIZE_MAX = nm ++ "1 [.. " ++ nm ++ "N]"
    ∧ (¬(mn = 0 ∧ mx = 1) → ¬(mn = 0 ∧ mx = USIZE_MAX) →
        ¬(mn = 1 ∧ mx = USIZE_MAX) →
        trailing_brief nm mn mx = nm ++ toString mn ++ " .. " ++ nm ++ toString mx) := by
  refine ⟨rfl, rfl, by simp [Arguments.brief, joinSep], ?_, ?_, ?_, ?_, ?_⟩
  · intro hnames hne
    cases ps with
    | nil => exact absurd rfl hne
    | cons p rest =>
      have hp1 : p.1 ≠ "" := hnames p (List.mem_cons_self p rest)
      have hspec : joinSep " " ((p :: rest).map Prod.fst) ≠ "" := by
        simp only [List.map_cons]
        exact joinSep_ne_empty (rest.map Prod.fst) hp1
      simp only [Arguments.brief]
      rw [if_neg hspec]
  · simp +decide [trailing_brief]
  · simp +decide [trailing_brief]
  · simp +decide [trailing_brief]
  · intro h1 h2 h3
    simp only [trailing_brief]
    rw [if_neg h1, if_neg h2, if_neg h3]

/-- Witness for C7 at a concrete input: one positional plus an optional list
trailing declaration. -/
theorem brief_c7_witness :
    Arguments.brief ⟨[("one", "x")], some ("name", 0, USIZE_MAX, "y")⟩
      = joinSep " " ([("one", "x")].map Prod.fst) ++ " "
        ++ trailing_brief "name" 0 USIZE_MAX :=
  (brief_c7 [("one", "x")] "name" "y" 0 USIZE_MAX).2.2.2.1 (by decide) (by decide)

/-! Lemmas about the positional loop of `Arguments::parse`. -/

lemma lookupPos_eq_none_iff {m : List (String × String)} {k : String} :
    lookupPos m k = none ↔ m.find? (fun p => p.1 == k) = none := by
  rw [lookupPos]
  cases m.find? (fun p => p.1 == k) <;> simp

lemma insertPos_fresh {m : List (String × String)} {k : String} (v : String)
    (h : lookupPos m k = none) : insertPos m k v = m ++ [(k, v)] := by
  rw [insertPos, lookupPos_eq_none_iff.mp h]
  simp

lemma lookupPos_append {m : List (String × String)} {k : String}
    (h : lookupPos m k = none) (n v : String) :
    lookupPos (m ++ [(n, v)]) k = if n == k then some v else none := by
  rw [lookupPos, List.find?_append, lookupPos_eq_none_iff.mp h]
  by_cases hnk : (n == k) = true <;> simp [List.find?, hnk]

/-- The per-positional binding produced by the loop: the declared name paired
with the popped free argument. -/
def zipBind (ps : List (String × String)) (free : List String) :
    List (String × String) :=
  List.zipWith (fun p v => (p.1, v)) ps free

lemma posLoop_ok :
    ∀ (ps : List (String × String)) (free : List String)
      (acc : List (String × String)),
      ps.length ≤ free.length →
      (ps.map Prod.fst).Nodup →
      (∀ p ∈ ps, lookupPos acc p.1 = none) →
      posLoop ps free acc
        = Sum.inr (acc ++ zipBind ps free, free.drop ps.length) := by
  intro ps
  induction ps with
  | nil =>
    intro free acc _ _ _
    simp [posLoop, zipBind]
  | cons p rest ih =>
    intro free acc hlen hnodup hfresh
    obtain ⟨name, desc⟩ := p
    cases free with
    | nil => simp at hlen
    | cons v vs =>
      have hfname : lookupPos acc name = none :=
        hfresh (name, desc) (List.mem_cons_self _ _)
      have hname_not : name ∉ rest.map Prod.fst := by
        simp only [List.map_cons, List.nodup_cons] at hnodup
        exact hnodup.1
      have hnodup2 : (rest.map Prod.fst).Nodup := by
        simp only [List.map_cons, List.nodup_cons] at hnodup
        exact hnodup.2
      have hfresh2 : ∀ q ∈ rest, lookupPos (acc ++ [(name, v)]) q.1 = none := by
        intro q hq
        rw [lookupPos_append (hfresh q (List.mem_cons_of_mem _ hq)) name v]
        have hne : name ≠ q.1 :=
          fun he => hname_not (he ▸ List.mem_map_of_mem Prod.fst hq)
        simp [hne]
      simp only [posLoop]
      rw [if_neg (by simp [hfname])]
      rw [insertPos_fresh v hfname]
      rw [ih vs (acc ++ [(name, v)]) (by simpa using hlen) hnodup2 hfresh2]
      simp [zipBind, List.append_assoc]

lemma posLoop_missing :
    ∀ (ps : List (String × String)) (free : List String)
      (acc : List (String × String)) (h : free.length < ps.length),
      (ps.map Prod.fst).Nodup →
      (∀ p ∈ ps, lookupPos acc p.1 = none) →
      posLoop ps free acc
        = Sum.inl (.err ⟨"Required argument `" ++ (ps.get ⟨free.length, h⟩).1
            ++ "` not provided"⟩) := by
  intro ps
  induction ps with
  | nil =>
    intro free acc h
    exact absurd h (Nat.not_lt_zero _)
  | cons p rest ih =>
    intro free acc h hnodup hfresh
    obtain ⟨name, desc⟩ := p
    cases free with
    | nil => simp [posLoop]
    | cons v vs =>
      have hfname : lookupPos acc name = none :=
        hfresh (name, desc) (List.mem_cons_self _ _)
      have hname_not : name ∉ rest.map Prod.fst := by
        simp only [List.map_cons, List.nodup_cons] at hnodup
        exact hnodup.1
      have hnodup2 : (rest.map Prod.fst).Nodup := by
        simp only [List.map_cons, List.nodup_cons] at hnodup
        exact hnodup.2
      have hfresh2 : ∀ q ∈ rest, lookupPos (acc ++ [(name, v)]) q.1 = none := by
        intro q hq
        rw [lookupPos_append (hfresh q (List.mem_cons_of_mem _ hq)) name v]
        have hne : name ≠ q.1 :=
          fun he => hname_not (he ▸ List.mem_map_of_mem Prod.fst hq)
        simp [hne]
      have hvs : vs.length < rest.length := by simpa using h
      simp only [posLoop]
      rw [if_neg (by simp [hfname])]
      rw [insertPos_fresh v hfname]
      rw [ih vs (acc ++ [(name, v)]) hvs hnodup2 hfresh2]
      rfl

lemma lookup_zipBind :
    ∀ (ps : List (String × String)) (free : List String) (i : Nat)
      (hi : i < ps.length),
      ps.length ≤ free.length →
      (ps.map Prod.fst).Nodup →
      lookupPos (zipBind ps free) (ps.get ⟨i, hi⟩).1 = free[i]? := by
  intro ps
  induction ps with
  | nil =>
    intro free i hi
    exact absurd hi (Nat.not_lt_zero _)
  | cons p rest ih =>
    intro free i hi hlen hnodup
    cases free with
    | nil => simp at hlen
    | cons v vs =>
      have hname_not : p.1 ∉ rest.map Prod.fst := by
        simp only [List.map_cons, List.nodup_cons] at hnodup
        exact hnodup.1
      have hnodup2 : (rest.map Prod.fst).Nodup := by
        simp only [List.map_cons, List.nodup_cons] at hnodup
        exact hnodup.2
      cases i with
      | zero =>
        simp [zipBind, lookupPos, List.find?]
      | succ j =>
        have hj : j < rest.length := by simpa using hi
        have hkey : (rest.get ⟨j, hj⟩).1 ∈ rest.map Prod.fst :=
          List.mem_map_of_mem Prod.fst (rest.get_mem j hj)
        have hne : p.1 ≠ (rest.get ⟨j, hj⟩).1 :=
          fun he => hname_not (he ▸ hkey)
        have hbeq : (p.1 == (rest.get ⟨j, hj⟩).1) = false :=
          beq_eq_false_iff_ne.mpr hne
        simp only [zipBind, List.zipWith_cons_cons, lookupPos, List.find?] at *
        rw [show ((p :: rest).get ⟨j + 1, hi⟩) = rest.get ⟨j, hj⟩ from rfl]
        simp only [hbeq]
        rw [show ((v :: vs)[j + 1]?) = vs[j]? from List.getElem?_cons_succ]
        exact ih vs j hj (by simpa using hlen) hnodup2

/-- C1: for a registry with positional declarations `ps` (with the data
model's unique names) and optional trailing declaration `tr`, and a free list
of length `|ps| + k` where `k = 0` without a trailing declaration and
`min ≤ k ≤ max` with one, `Arguments::parse` succeeds, the i-th declared name
is bound to the i-th free argument, there are exactly `|ps|` positional
bindings, and the trailing bindings are exactly the `k` remaining free
arguments in order. -/
theorem parse_success_c1 (ps : List (String × String))
    (tr : Option (String × Nat × Nat × String)) (free : List String) (k : Nat)
    (hnodup : (ps.map Prod.fst).Nodup)
    (hlen : free.length = ps.length + k)
    (hk : match tr with
          | none => k = 0
          | some (_, mn, mx, _) => mn ≤ k ∧ k ≤ mx) :
    ∃ m : Matches,
      Arguments.parse ⟨ps, tr⟩ free = .ok m
      ∧ (∀ i (hi : i < ps.length),
          lookupPos m.positional (ps.get ⟨i, hi⟩).1 = free[i]?)
      ∧ m.positional.length = ps.length
      ∧ m.trailing = free.drop ps.length := by
  have hle : ps.length ≤ free.length := by omega
  have hfresh : ∀ p ∈ ps, lookupPos ([] : List (String × String)) p.1 = none := by
    intro p _
    rfl
  have hpos := posLoop_ok ps free [] hle hnodup hfresh
  rw [List.nil_append] at hpos
  have hdroplen : (free.drop ps.length).length = k := by
    rw [List.length_drop]
    omega
  have hbindlen : (zipBind ps free).length = ps.length := by
    rw [zipBind, List.length_zipWith]
    omega
  cases tr with
  | none =>
    have hk0 : k = 0 := hk
    have hdrop : free.drop ps.length = [] := by
      apply List.eq_nil_of_length_eq_zero
      omega
    refine ⟨⟨zipBind ps free, []⟩, ?_, ?_, hbindlen, by rw [hdrop]⟩
    · simp [Arguments.parse, hpos, hdrop]
    · intro i hi
      exact lookup_zipBind ps free i hi hle hnodup
  | some t =>
    obtain ⟨nm, mn, mx, d⟩ := t
    obtain ⟨hmin, hmax⟩ := hk
    refine ⟨⟨zipBind ps free, free.drop ps.length⟩, ?_, ?_, hbindlen, rfl⟩
    · simp only [Arguments.parse, hpos]
      rw [if_neg (by omega), if_neg (by simp only [Nat.not_lt] at *; omega)]
    · intro i hi
      exact lookup_zipBind ps free i hi hle hnodup

/-- Witness for C1: two positionals plus a `(0, usize::MAX)` trailing
declaration against three free arguments. -/
theorem parse_success_c1_witness :
    ∃ m : Matches,
      Arguments.parse
          ⟨[("one", "d1"), ("two", "d2")], some ("name", 0, USIZE_MAX, "d")⟩
          ["a", "b", "c"] = .ok m
      ∧ (∀ i (hi : i < ([("one", "d1"), ("two", "d2")]
            : List (String × String)).length),
          lookupPos m.positional
              (([("one", "d1"), ("two", "d2")]
                : List (String × String)).get ⟨i, hi⟩).1
            = (["a", "b", "c"] : List String)[i]?)
      ∧ m.positional.length
          = ([("one", "d1"), ("two", "d2")] : List (String × String)).length
      ∧ m.trailing = (["a", "b", "c"] : List String).drop
          ([("one", "d1"), ("two", "d2")] : List (String × String)).length :=
  parse_success_c1 [("one", "d1"), ("two", "d2")]
    (some ("name", 0, USIZE_MAX, "d")) ["a", "b", "c"] 1
    (by decide) (by decide) (by decide)

/-- C2 counterexample: the claim's quoted message uses single-quote
characters around the argument name, but the code (src/args.rs line 164)
quotes the name with backticks: at the concrete registry `[("one", "d")]`
and empty free list, parse produces the backtick message and not the
claimed single-quoted one. -/
theorem parse_errors_c2_counterexample :
    Arguments.parse ⟨[("one", "d")], none⟩ []
        = .err ⟨"Required argument `one` not provided"⟩
    ∧ Arguments.parse ⟨[("one", "d")], none⟩ []
        ≠ .err ⟨"Required argument \x27one\x27 not provided"⟩ := by
  decide

lemma parse_missing_err (ps : List (String × String)) (free : List String)
    (hnodup : (ps.map Prod.fst).Nodup) (h : free.length < ps.length)
    (tr : Option (String × Nat × Nat × String)) :
    Arguments.parse ⟨ps, tr⟩ free
      = .err ⟨"Required argument `" ++ (ps.get ⟨free.length, h⟩).1
          ++ "` not provided"⟩ := by
  have hfresh : ∀ p ∈ ps, lookupPos ([] : List (String × String)) p.1 = none := by
    intro p _
    rfl
  have hmiss := posLoop_missing ps free [] h hnodup hfresh
  simp [Arguments.parse, hmiss]

lemma parse_min_err (ps : List (String × String)) (nm d : String) (mn mx : Nat)
    (free : List String) (hnodup : (ps.map Prod.fst).Nodup)
    (hle : ps.length ≤ free.length) (hlt : free.length - ps.length < mn) :
    Arguments.parse ⟨ps, some (nm, mn, mx, d)⟩ free
      = .err (if mn = 1 then
            ⟨"Trailing argument `" ++ nm ++ "` requires at least 1 value"⟩
          else
            ⟨"Trailing argument `" ++ nm ++ "` requires at least "
                ++ toString mn ++ " values"⟩) := by
  have hfresh : ∀ p ∈ ps, lookupPos ([] : List (String × String)) p.1 = none := by
    intro p _
    rfl
  have hpos := posLoop_ok ps free [] hle hnodup hfresh
  rw [List.nil_append] at hpos
  have hdroplen : (free.drop ps.length).length = free.length - ps.length :=
    List.length_drop ps.length free
  simp only [Arguments.parse, hpos]
  rw [if_pos (by omega)]
  by_cases h1 : mn = 1 <;> simp [h1]

lemma parse_max_err (ps : List (String × String)) (nm d : String) (mn mx : Nat)
    (free : List String) (hnodup : (ps.map Prod.fst).Nodup)
    (hle : ps.length ≤ free.length) (hge : mn ≤ free.length - ps.length)
    (hlt : mx < free.length - ps.length) :
    Arguments.parse ⟨ps, some (nm, mn, mx, d)⟩ free
      = .err ⟨"Too many arguments"⟩ := by
  have hfresh : ∀ p ∈ ps, lookupPos ([] : List (String × String)) p.1 = none := by
    intro p _
    rfl
  have hpos := posLoop_ok ps free [] hle hnodup hfresh
  rw [List.nil_append] at hpos
  have hdroplen : (free.drop ps.length).length = free.length - ps.length :=
    List.length_drop ps.length free
  simp only [Arguments.parse, hpos]
  rw [if_neg (by omega), if_pos (by omega)]

lemma parse_extra_err (ps : List (String × String)) (free : List String)
    (hnodup : (ps.map Prod.fst).Nodup) (hlt : ps.length < free.length) :
    Arguments.parse ⟨ps, none⟩ free = .err ⟨"Too many arguments"⟩ := by
  have hfresh : ∀ p ∈ ps, lookupPos ([] : List (String × String)) p.1 = none := by
    intro p _
    rfl
  have hle : ps.length ≤ free.length := Nat.le_of_lt hlt
  have hpos := posLoop_ok ps free [] hle hnodup hfresh
  rw [List.nil_append] at hpos
  have hdroplen : (free.drop ps.length).length = free.length - ps.length :=
    List.length_drop ps.length free
  simp only [Arguments.parse, hpos]
  cases hrest : free.drop ps.length with
  | nil =>
    rw [hrest] at hdroplen
    simp at hdroplen
    omega
  | cons x xs => rfl

/-- C2 (amended): `Arguments::parse` returns a `UsageError` exactly in these
cases, short-circuiting at the first failure, with the argument name quoted
in backticks rather than single quotes: (a) fewer free arguments than
positional declarations fails with ``Required argument `name` not provided``
naming the first positional left without an argument; (b) a trailing
declaration with leftover count below `min` fails with ``Trailing argument
`name` requires at least 1 value`` when `min = 1`, else `... at least {min}
values`; (c) a leftover count above `max`, or any leftover without a
trailing declaration, fails with `Too many arguments`. -/
theorem parse_errors_c2 (ps : List (String × String)) (nm d : String)
    (mn mx : Nat) (free : List String)
    (hnodup : (ps.map Prod.fst).Nodup) :
    (∀ h : free.length < ps.length,
      ∀ tr : Option (String × Nat × Nat × String),
        Arguments.parse ⟨ps, tr⟩ free
          = .err ⟨"Required argument `" ++ (ps.get ⟨free.length, h⟩).1
              ++ "` not provided"⟩)
    ∧ (ps.length ≤ free.length → free.length - ps.length < mn →
        Arguments.parse ⟨ps, some (nm, mn, mx, d)⟩ free
          = .err (if mn = 1 then
                ⟨"Trailing argument `" ++ nm ++ "` requires at least 1 value"⟩
              else
                ⟨"Trailing argument `" ++ nm ++ "` requires at least "
                    ++ toString mn ++ " values"⟩))
    ∧ (ps.length ≤ free.length → mn ≤ free.length - ps.length →
        mx < free.length - ps.length →
        Arguments.parse ⟨ps, some (nm, mn, mx, d)⟩ free
          = .err ⟨"Too many arguments"⟩)
    ∧ (ps.length < free.length →
        Arguments.parse ⟨ps, none⟩ free = .err ⟨"Too many arguments"⟩) :=
  ⟨fun h tr => parse_missing_err ps free hnodup h tr,
    fun hle hlt => parse_min_err ps nm d mn mx free hnodup hle hlt,
    fun hle hge hlt => parse_max_err ps nm d mn mx free hnodup hle hge hlt,
    fun hlt => parse_extra_err ps free hnodup hlt⟩

/-- Witness for C2 (amended): a two-positional registry with one free
argument fails naming the second positional, with backtick quoting. -/
theorem parse_errors_c2_witness :
    Arguments.parse ⟨[("one", "d1"), ("two", "d2")], none⟩ ["foo"]
      = .err ⟨"Required argument `"
          ++ (([("one", "d1"), ("two", "d2")] : List (String × String)).get
              ⟨(["foo"] : List String).length, by decide⟩).1
          ++ "` not provided"⟩ :=
  (parse_errors_c2 [("one", "d1"), ("two", "d2")] "nm" "d" 0 0 ["foo"]
      (by decide)).1 (by decide) none

/-- C8 counterexample: with two positionals sharing the name `x` and two free
arguments, validation does not silently overwrite the binding — the
`assert!(previous.is_none())` on src/args.rs line 167 fires, aborting the
parse; in particular no `Matches` with a single overwritten binding is
returned. -/
theorem duplicate_name_c8_counterexample :
    Arguments.parse ⟨[("x", "d1"), ("x", "d2")], none⟩ ["a", "b"]
        = ParseResult.panicked
    ∧ Arguments.parse ⟨[("x", "d1"), ("x", "d2")], none⟩ ["a", "b"]
        ≠ ParseResult.ok ⟨[("x", "b")], []⟩
    ∧ Arguments.parse ⟨[("x", "d1"), ("x", "d2")], none⟩ ["a", "b"]
        ≠ ParseResult.ok ⟨[("x", "a")], []⟩ := by
  decide

lemma lookupPos_append_isSome {m : List (String × String)} {k : String}
    (h : (lookupPos m k).isSome) (m2 : List (String × String)) :
    (lookupPos (m ++ m2) k).isSome := by
  rw [lookupPos, List.find?_append]
  rcases hf : m.find? (fun p => p.1 == k) with _ | p
  · rw [lookupPos, hf] at h
    simp at h
  · simp [hf, Option.or]

/-- If some declaration within reach of the free list either collides with a
binding already in the accumulator or duplicates an earlier declaration, the
positional loop aborts at the `assert!`. -/
lemma posLoop_panic :
    ∀ (ps : List (String × String)) (free : List String)
      (acc : List (String × String)),
      (∃ j, ∃ hj : j < ps.length, j < free.length ∧
        ((lookupPos acc (ps.get ⟨j, hj⟩).1).isSome
          ∨ ∃ i, ∃ hi : i < j,
              (ps.get ⟨i, Nat.lt_trans hi hj⟩).1 = (ps.get ⟨j, hj⟩).1)) →
      posLoop ps free acc = Sum.inl ParseResult.panicked := by
  intro ps
  induction ps with
  | nil =>
    intro free acc h
    obtain ⟨j, hj, _⟩ := h
    exact absurd hj (Nat.not_lt_zero _)
  | cons p rest ih =>
    intro free acc h
    obtain ⟨j, hj, hjf, hcond⟩ := h
    cases free with
    | nil => exact absurd hjf (Nat.not_lt_zero _)
    | cons v vs =>
      obtain ⟨name, desc⟩ := p
      by_cases hlook : (lookupPos acc name).isSome
      · simp [posLoop, hlook]
      · have hstep : posLoop ((name, desc) :: rest) (v :: vs) acc
            = posLoop rest vs (insertPos acc name v) := by
          simp [posLoop, hlook]
        have hnone : lookupPos acc name = none := by
          rcases hx : lookupPos acc name with _ | val
          · rfl
          · rw [hx] at hlook
            simp at hlook
        rw [hstep, insertPos_fresh v hnone]
        apply ih vs (acc ++ [(name, v)])
        cases j with
        | zero =>
          rcases hcond with hl | ⟨i, hi, _⟩
          · exact absurd hl hlook
          · exact absurd hi (Nat.not_lt_zero _)
        | succ j2 =>
          have hj2 : j2 < rest.length := Nat.lt_of_succ_lt_succ hj
          have hj2f : j2 < vs.length := Nat.lt_of_succ_lt_succ hjf
          refine ⟨j2, hj2, hj2f, ?_⟩
          rcases hcond with hl | ⟨i, hi, hdup⟩
          · exact Or.inl (lookupPos_append_isSome hl _)
          · cases i with
            | zero =>
              left
              have hkey : name = (rest.get ⟨j2, hj2⟩).1 := hdup
              rw [← hkey, lookupPos_append hnone name v]
              simp
            | succ i2 =>
              exact Or.inr ⟨i2, Nat.lt_of_succ_lt_succ hi, hdup⟩

/-- C8 (amended): for every registry containing two positional declarations
that share the same name — at any pair of positions `i < j`, adjacent or
not — and every free-argument list long enough to reach the second of them
(more than `j` entries), validation aborts: the insert of the repeated
binding finds a previous one and the assertion panics, rather than silently
overwriting. -/
theorem duplicate_name_c8 (ps : List (String × String)) (free : List String)
    (tr : Option (String × Nat × Nat × String)) (i j : Nat)
    (hij : i < j) (hj : j < ps.length)
    (hdup : (ps.get ⟨i, Nat.lt_trans hij hj⟩).1 = (ps.get ⟨j, hj⟩).1)
    (hfree : j < free.length) :
    Arguments.parse ⟨ps, tr⟩ free = ParseResult.panicked := by
  have h := posLoop_panic ps free []
    ⟨j, hj, hfree, Or.inr ⟨i, hij, hdup⟩⟩
  simp [Arguments.parse, h]

/-- Witness for C8 (amended): a registry whose duplicate declarations of
`x` sit at the non-adjacent, non-leading positions 1 and 3, with four free
arguments, panics. -/
theorem duplicate_name_c8_witness :
    Arguments.parse
        ⟨[("a", "d0"), ("x", "d1"), ("y", "d2"), ("x", "d3")], none⟩
        ["v0", "v1", "v2", "v3"] = ParseResult.panicked :=
  duplicate_name_c8 [("a", "d0"), ("x", "d1"), ("y", "d2"), ("x", "d3")]
    ["v0", "v1", "v2", "v3"] none 1 3 (by decide) (by decide) (by decide)
    (by decide)

/-- C10: `Arguments::trailing` accepts any `(min, max)` pair without checking
`min ≤ max`, so a trailing declaration with `min > max` is registered
without a fast failure; and for every registry carrying such a declaration
(with the data model's unique positional names), `Arguments::parse` returns a
`UsageError` on every free-argument list, so validation can never succeed. -/
theorem trailing_unsat_c10 (a : Arguments) (nm d : String) (mn mx : Nat)
    (ps : List (String × String))
    (hnone : a.trailing_spec = none) (hminmax : mx < mn)
    (hnodup : (ps.map Prod.fst).Nodup) :
    Arguments.trailing a nm mn mx d
        = some { a with trailing_spec := some (nm, mn, mx, d) }
    ∧ ∀ free : List String, ∃ e : UsageError,
        Arguments.parse ⟨ps, some (nm, mn, mx, d)⟩ free = .err e := by
  constructor
  · rw [Arguments.trailing, hnone]
    rfl
  · intro free
    by_cases hlt : free.length < ps.length
    · exact ⟨_, parse_missing_err ps free hnodup hlt (some (nm, mn, mx, d))⟩
    · have hle : ps.length ≤ free.length := Nat.le_of_not_lt hlt
      by_cases hmin : free.length - ps.length < mn
      · exact ⟨_, parse_min_err ps nm d mn mx free hnodup hle hmin⟩
      · refine ⟨⟨"Too many arguments"⟩,
          parse_max_err ps nm d mn mx free hnodup hle ?_ ?_⟩
        · omega
        · omega

/-- Witness for C10: a fresh registry accepts a trailing declaration with
`min = 2 > 1 = max`, and parsing any of three representative free lists then
fails with a usage error. -/
theorem trailing_unsat_c10_witness :
    Arguments.trailing ⟨[], none⟩ "t" 2 1 "d"
        = some { positional_spec := [], trailing_spec := some ("t", 2, 1, "d") }
    ∧ ∀ free : List String, ∃ e : UsageError,
        Arguments.parse ⟨[], some ("t", 2, 1, "d")⟩ free = .err e :=
  trailing_unsat_c10 ⟨[], none⟩ "t" "d" 2 1 [] (by decide) (by decide) (by decide)

/-- C3: `Builder::run` maps outcomes to exit codes: 0 on a help or version
short-circuit; the callback's returned integer unchanged (including zero and
negative values) when the callback succeeds; 2, after printing
`Usage error: <message>` plus a one-line help hint, when the failure is a
`UsageError` or a malformed-flags failure from the option parser; 1, after
printing `<program name>: <message>`, for every other error returned by the
callback. -/
theorem run_exit_codes_c3 (app : App) (args : Arguments) (o : OptParseResult)
    (main : Matches → Except AppError Int) (r : List Rendered) (m : Matches)
    (code : Int) (e : UsageError) (fmsg emsg : String) :
    (pre_run args o = .earlyExit r →
      Builder.run app args o main = some ([], 0))
    ∧ (pre_run args o = .ok m → main m = .ok code →
      Builder.run app args o main = some ([], code))
    ∧ (pre_run args o = .usageErr e →
      ∃ hint, Builder.run app args o main
          = some (["Usage error: " ++ e.message, hint], 2))
    ∧ (pre_run args o = .optFail fmsg →
      ∃ hint, Builder.run app args o main
          = some (["Usage error: " ++ fmsg, hint], 2))
    ∧ (pre_run args o = .ok m → main m = .error (.usage e) →
      Builder.run app args o main = some (print_usage_error app e.message, 2))
    ∧ (pre_run args o = .ok m → main m = .error (.other emsg) →
      Builder.run app args o main
          = some ([app.program_name ++ ": " ++ emsg], 1)) := by
  refine ⟨?_, ?_, ?_, ?_, ?_, ?_⟩
  · intro h1
    simp [Builder.run, h1]
  · intro h1 h2
    simp [Builder.run, h1, h2]
  · intro h1
    have hrun : Builder.run app args o main
        = some (print_usage_error app e.message, 2) := by
      simp [Builder.run, h1, handle_error]
    rw [hrun, print_usage_error]
    exact ⟨_, rfl⟩
  · intro h1
    have hrun : Builder.run app args o main
        = some (print_usage_error app fmsg, 2) := by
      simp [Builder.run, h1, handle_error]
    rw [hrun, print_usage_error]
    exact ⟨_, rfl⟩
  · intro h1 h2
    simp [Builder.run, h1, h2, handle_error]
  · intro h1 h2
    simp [Builder.run, h1, h2, handle_error]

/-- Witness for C3 at concrete inputs: a help short-circuit exits 0; a
successful callback's `-3` is returned unchanged; a missing positional
yields the usage-error lines and exit 2; a plain callback error yields the
program-prefixed line and exit 1. -/
theorem run_exit_codes_c3_witness :
    Builder.run ⟨"prog", none⟩ ⟨[], none⟩ (.ok ⟨true, false, []⟩)
        (fun _ => .ok 7) = some ([], 0)
    ∧ Builder.run ⟨"prog", none⟩ ⟨[], none⟩ (.ok ⟨false, false, []⟩)
        (fun _ => .ok (-3)) = some ([], -3)
    ∧ (∃ hint, Builder.run ⟨"prog", none⟩ ⟨[("one", "d")], none⟩
          (.ok ⟨false, false, []⟩) (fun _ => .ok 0)
        = some (["Usage error: "
            ++ (UsageError.mk "Required argument `one` not provided").message,
            hint], 2))
    ∧ Builder.run ⟨"prog", none⟩ ⟨[], none⟩ (.ok ⟨false, false, []⟩)
        (fun _ => .error (.other "boom"))
        = some ([("prog" : String) ++ ": " ++ "boom"], 1) :=
  ⟨(run_exit_codes_c3 ⟨"prog", none⟩ ⟨[], none⟩ (.ok ⟨true, false, []⟩)
      (fun _ => .ok 7) [.helpOutput] ⟨[], []⟩ 0 ⟨""⟩ "" "").1 (by decide),
   (run_exit_codes_c3 ⟨"prog", none⟩ ⟨[], none⟩ (.ok ⟨false, false, []⟩)
      (fun _ => .ok (-3)) [] ⟨[], []⟩ (-3) ⟨""⟩ "" "").2.1 (by decide) rfl,
   (run_exit_codes_c3 ⟨"prog", none⟩ ⟨[("one", "d")], none⟩
      (.ok ⟨false, false, []⟩) (fun _ => .ok 0) [] ⟨[], []⟩ 0
      ⟨"Required argument `one` not provided"⟩ "" "").2.2.1 (by decide),
   (run_exit_codes_c3 ⟨"prog", none⟩ ⟨[], none⟩ (.ok ⟨false, false, []⟩)
      (fun _ => .error (.other "boom")) [] ⟨[], []⟩ 0 ⟨""⟩ ""
      "boom").2.2.2.2.2 (by decide) rfl⟩

/-- C4: when the parsed flags set `help`, `pre_run` renders the help output
and returns the early-exit result without running free-argument validation
(the result is the same for every registry and free-argument list, valid or
not), `Builder::run` exits 0, and the application callback is never invoked
(the run result is independent of the callback). -/
theorem help_exit_c4 (app : App) (args : Arguments) (om : OptMatches)
    (h : om.help = true) (main main2 : Matches → Except AppError Int) :
    pre_run args (.ok om) = .earlyExit [.helpOutput]
    ∧ Builder.run app args (.ok om) main = some ([], 0)
    ∧ Builder.run app args (.ok om) main = Builder.run app args (.ok om) main2 := by
  have hpre : pre_run args (.ok om) = .earlyExit [.helpOutput] := by
    simp [pre_run, h]
  refine ⟨hpre, ?_, ?_⟩
  · simp [Builder.run, hpre]
  · simp [Builder.run, hpre]

/-- Witness for C4: help requested together with the version flag and two
free arguments that would fail validation still short-circuits to help and
exit 0, for two different callbacks. -/
theorem help_exit_c4_witness :
    pre_run ⟨[("one", "d")], none⟩ (.ok ⟨true, true, ["bogus", "extra"]⟩)
        = .earlyExit [.helpOutput]
    ∧ Builder.run ⟨"prog", none⟩ ⟨[("one", "d")], none⟩
        (.ok ⟨true, true, ["bogus", "extra"]⟩) (fun _ => .ok 42) = some ([], 0)
    ∧ Builder.run ⟨"prog", none⟩ ⟨[("one", "d")], none⟩
          (.ok ⟨true, true, ["bogus", "extra"]⟩) (fun _ => .ok 42)
        = Builder.run ⟨"prog", none⟩ ⟨[("one", "d")], none⟩
          (.ok ⟨true, true, ["bogus", "extra"]⟩)
          (fun _ => .error (.other "x")) :=
  help_exit_c4 ⟨"prog", none⟩ ⟨[("one", "d")], none⟩
    ⟨true, true, ["bogus", "extra"]⟩ rfl
    (fun _ => .ok 42) (fun _ => .error (.other "x"))

/-- C9: when both the help flag and the version flag are set, `pre_run`
renders the help output only, never the version output; the version flag is
consulted only when help is absent. -/
theorem help_precedence_c9 (args args2 : Arguments) (om om2 : OptMatches)
    (h1 : om.help = true) (_h2 : om.version = true)
    (h3 : om2.help = false) (h4 : om2.version = true) :
    pre_run args (.ok om) = .earlyExit [.helpOutput]
    ∧ pre_run args2 (.ok om2) = .earlyExit [.versionOutput] := by
  constructor
  · simp [pre_run, h1]
  · simp [pre_run, h3, h4]

/-- Witness for C9: both flags set renders help only; version alone renders
version. -/
theorem help_precedence_c9_witness :
    pre_run ⟨[], none⟩ (.ok ⟨true, true, []⟩) = .earlyExit [.helpOutput]
    ∧ pre_run ⟨[], none⟩ (.ok ⟨false, true, []⟩)
        = .earlyExit [.versionOutput] :=
  help_precedence_c9 ⟨[], none⟩ ⟨[], none⟩ ⟨true, true, []⟩ ⟨false, true, []⟩
    rfl rfl rfl rfl

end Getoptsargs
